import Mathlib

set_option autoImplicit false

/-!
Shallow embedding of the cargo-deps project-parsing pipeline
(`src/project.rs` together with the entry points of `src/main.rs`).

The manifest and lock documents arrive as already-parsed TOML value
trees (the document loader is an external collaborator per the spec),
so the embedding starts from a `Toml` tree.  Rust `HashMap`s are
embedded as association lists with lookup-based access; panics
(`expect`, out-of-bounds indexing) are a dedicated error constructor,
so every function is total.
-/

/-- A TOML value tree, as supplied by the external document loader. -/
inductive Toml where
  | str : String → Toml
  | boolean : Bool → Toml
  | int : Int → Toml
  | table : List (String × Toml) → Toml
  | arr : List Toml → Toml

/-- First-match lookup in an association list keyed by strings
(TOML tables have unique keys, so this is map access). -/
def mapGet {α : Type} : List (String × α) → String → Option α
  | [], _ => none
  | (k, v) :: rest, key => if k = key then some v else mapGet rest key

/-- `toml::Value::get`: key lookup on a table, `none` on other variants. -/
def Toml.get : Toml → String → Option Toml
  | Toml.table kvs, k => mapGet kvs k
  | _, _ => none

/-- `toml::Value::as_table`. -/
def Toml.as_table : Toml → Option (List (String × Toml))
  | Toml.table kvs => some kvs
  | _ => none

/-- `toml::Value::as_str`. -/
def Toml.as_str : Toml → Option String
  | Toml.str s => some s
  | _ => none

/-- `DepKind` from `src/dep.rs` (the variants used by `src/project.rs`). -/
inductive DepKind where
  | Regular : DepKind
  | Build : DepKind
  | Dev : DepKind
  | Optional : DepKind
deriving DecidableEq, Repr

/-- `RootCrate` from `src/dep.rs`: the manifest package identity. -/
structure RootCrate where
  name : String
  ver : String
deriving DecidableEq, Repr

/-- Map of dep names to their kinds (`DepKindsMap`). -/
abbrev DepKindsMap := List (String × List DepKind)

/-- Map of root names to dep kinds maps (`RootDepsMap`). -/
abbrev RootDepsMap := List (String × DepKindsMap)

/-- Modelled from the spec: the configuration object (`src/config.rs` is not
among the repository files).  Exactly the fields `src/project.rs` reads:
the kind flags, the include-versions flag and the optional filter set. -/
structure Config where
  optional_deps : Bool
  regular_deps : Bool
  build_deps : Bool
  dev_deps : Bool
  include_vers : Bool
  filter : Option (List String)
deriving DecidableEq, Repr

/-- The two `CliError` constructors `src/project.rs` builds
(`src/error.rs` is not among the repository files; the spec calls these
input-shape and consistency errors). -/
inductive CliError where
  | Toml : String → CliError
  | Generic : String → CliError
deriving DecidableEq, Repr

/-- A result that is either a value, a returned `CliError`, or a Rust
panic (with the panic message), making panicking paths explicit. -/
inductive PErr where
  | cli : CliError → PErr
  | panic : String → PErr
deriving DecidableEq, Repr

abbrev PResult (α : Type) := Except PErr α

/-- Modelled from the spec: the dependency graph store (`src/graph.rs` is
not among the repository files).  Nodes are an index-based arena of
(name, version) pairs; edges are (parent index, child index) pairs,
deduplicated; the graph also carries the configuration and the
root-deps map, as `src/project.rs` stores both on it. -/
structure DepGraph where
  cfg : Config
  nodes : List (String × String)
  edges : List (Nat × Nat)
  root_deps_map : RootDepsMap
deriving DecidableEq, Repr

/-- Index of the first (name, version) match in the node arena. -/
def findPair (name ver : String) : List (String × String) → Option Nat
  | [] => none
  | p :: rest =>
    if p.1 = name ∧ p.2 = ver then some 0
    else (findPair name ver rest).map (fun i => i + 1)

/-- Modelled from the spec: `find(name, version)` is exact-key lookup
returning an optional node id. -/
def DepGraph.find (dg : DepGraph) (name ver : String) : Option Nat :=
  findPair name ver dg.nodes

/-- Modelled from the spec: `find_or_add` returns the existing id if
present, else allocates the next index and stores the node. -/
def DepGraph.find_or_add (dg : DepGraph) (name ver : String) : Nat × DepGraph :=
  match dg.find name ver with
  | some i => (i, dg)
  | none => (dg.nodes.length, { dg with nodes := dg.nodes ++ [(name, ver)] })

/-- Modelled from the spec: `add_child` resolves or creates the child
node, then adds a parent→child edge unless one already exists (re-adding
merges rather than duplicating; the kind lists live in the later
`set_resolved_kind` pass, which these claims treat abstractly). -/
def DepGraph.add_child (dg : DepGraph) (id : Nat) (depName depVer : String) : DepGraph :=
  let found := dg.find_or_add depName depVer
  if (id, found.1) ∈ found.2.edges then found.2
  else { found.2 with edges := found.2.edges ++ [(id, found.1)] }

/-- `DepGraph::new` with a configuration, as built in `parse_lock_file`. -/
def DepGraph.new (cfg : Config) : DepGraph :=
  { cfg := cfg, nodes := [], edges := [], root_deps_map := [] }

/-- `add_kind`: `entry(key).or_insert(vec![]).push(kind)`. -/
def addKind (m : DepKindsMap) (key : String) (kind : DepKind) : DepKindsMap :=
  match mapGet m key with
  | some _ => m.map (fun p => if p.1 = key then (p.1, p.2 ++ [kind]) else p)
  | none => m ++ [(key, [kind])]

/-- The message of the missing-root-crate error (project.rs line 158). -/
def missingRootMsg (name ver : String) : String :=
  "Missing \'name\': " ++ name ++ " and \'version\': " ++ ver ++ " in lock file"

/-- The message of the root-crate version-mismatch error (line 212). -/
def versionMismatchMsg (ver name : String) : String :=
  "Version " ++ ver ++ " of root crate \'" ++ name ++
    "\' in Cargo.lock does not match version specified in Cargo.toml"

def noPackageMsg : String := "No [package] table found"

def packageNotTableMsg : String := "Could not parse [package] as a table"

def nameVerMsg : String := "No \'name\' or \'version\' fields in [package] table"

def panicNoName : String := "No \'name\' field in Cargo.lock [package] or [root] table"

def panicNameNotStr : String :=
  "\'name\' field of [package] or [root] table in Cargo.lock was not a valid string"

def panicNoVer : String := "No \'version\' field in Cargo.lock [package] or [root] table"

def panicVerNotStr : String :=
  "\'version\' field of [package] or [root] table in Cargo.lock was not a valid string"

/-- The message of the slice-indexing panic at `dep_vec[1]`. -/
def panicIndex1 (len : Nat) : String :=
  "index out of bounds: the len is " ++ toString len ++ " but the index is 1"

/-- `str::split(' ')` on a character list: split at every space,
keeping empty pieces (never returns the empty list). -/
def splitSpaces : List Char → List (List Char)
  | [] => [[]]
  | c :: rest =>
    match splitSpaces rest with
    | t :: ts => if c = ' ' then [] :: t :: ts else (c :: t) :: ts
    | [] => [[]]

/-- `dep.as_str().unwrap_or("").split(' ')` (project.rs line 222). -/
def depTokens (dep : Toml) : List String :=
  (splitSpaces ((dep.as_str).getD "").toList).map (fun cs => String.mk cs)

/-- One iteration of the dependency loop of `parse_package`
(project.rs lines 221-240): read tokens 0 and 1 of the split dependency
string (panicking when token 1 is missing), apply the filter, skip
root deps filtered out of the root-deps map, else `add_child`. -/
def processDep (dg : DepGraph) (id : Nat) (name : String) (dep : Toml) : PResult DepGraph :=
  match depTokens dep with
  | dep_name :: dep_ver :: _ =>
    if (match dg.cfg.filter with
        | some filter_deps => !(filter_deps.contains dep_name)
        | none => false)
    then Except.ok dg
    else if (match mapGet dg.root_deps_map name with
             | some dep_kinds_map => (mapGet dep_kinds_map dep_name).isNone
             | none => false)
    then Except.ok dg
    else Except.ok (dg.add_child id dep_name dep_ver)
  | dep_vec => Except.error (PErr.panic (panicIndex1 dep_vec.length))

/-- The dependency loop of `parse_package` over the whole array. -/
def processDeps (dg : DepGraph) (id : Nat) (name : String) : List Toml → PResult DepGraph
  | [] => Except.ok dg
  | dep :: rest =>
    match processDep dg id name dep with
    | Except.error e => Except.error e
    | Except.ok dg1 => processDeps dg1 id name rest

/-- The body of `parse_package` after the name/version/filter prologue
(project.rs lines 204-241): `find_or_add` the entry node, check root
crate version consistency, then walk the dependencies array if present. -/
def parsePackageBody (dg : DepGraph) (pkg : Toml) (name ver : String)
    (root_crates : List RootCrate) : PResult DepGraph :=
  if (mapGet (dg.find_or_add name ver).2.root_deps_map name).isSome ∧
      ¬ (root_crates.any (fun rc => rc.name == name && rc.ver == ver)) then
    Except.error (PErr.cli (CliError.Generic (versionMismatchMsg ver name)))
  else
    match pkg.get "dependencies" with
    | some (Toml.arr deps) =>
      processDeps (dg.find_or_add name ver).2 (dg.find_or_add name ver).1 name deps
    | _ => Except.ok (dg.find_or_add name ver).2

/-- `parse_package` (project.rs lines 174-244): extract the entry name
and version (each `expect` is a panic), apply the filter early return,
then run the body. -/
def parse_package (dg : DepGraph) (pkg : Toml) (root_crates : List RootCrate) :
    PResult DepGraph :=
  match pkg.get "name" with
  | none => Except.error (PErr.panic panicNoName)
  | some nv =>
    match nv.as_str with
    | none => Except.error (PErr.panic panicNameNotStr)
    | some name =>
      match pkg.get "version" with
      | none => Except.error (PErr.panic panicNoVer)
      | some vv =>
        match vv.as_str with
        | none => Except.error (PErr.panic panicVerNotStr)
        | some ver =>
          if (match dg.cfg.filter with
              | some filter_deps => !(filter_deps.contains name)
              | none => false)
          then Except.ok dg
          else parsePackageBody dg pkg name ver root_crates

/-- The root-crate completeness loop ending `parse_lock_file`
(project.rs lines 155-163). -/
def checkRoots : List RootCrate → DepGraph → PResult DepGraph
  | [], dg => Except.ok dg
  | rc :: rest, dg =>
    if (dg.find rc.name rc.ver).isNone then
      Except.error (PErr.cli (CliError.Toml (missingRootMsg rc.name rc.ver)))
    else checkRoots rest dg

/-- The loop over the lock file package array (project.rs lines 149-153). -/
def parsePackages (dg : DepGraph) (root_crates : List RootCrate) :
    List Toml → PResult DepGraph
  | [] => Except.ok dg
  | pkg :: rest =>
    match parse_package dg pkg root_crates with
    | Except.error e => Except.error e
    | Except.ok dg1 => parsePackages dg1 root_crates rest

/-- The entry-walking part of `Project::parse_lock_file` (project.rs
lines 140-153): build a fresh graph holding the root-deps map, parse the
optional `root` entry, then parse every `package` entry. -/
def parseLockPackages (cfg : Config) (lock : Toml) (root_crates : List RootCrate)
    (root_deps_map : RootDepsMap) : PResult DepGraph :=
  match (match lock.get "root" with
         | some root =>
           parse_package { DepGraph.new cfg with root_deps_map := root_deps_map } root root_crates
         | none => Except.ok { DepGraph.new cfg with root_deps_map := root_deps_map }) with
  | Except.error e => Except.error e
  | Except.ok dg1 =>
    match lock.get "package" with
    | some (Toml.arr packages) => parsePackages dg1 root_crates packages
    | _ => Except.ok dg1

/-- `Project::parse_lock_file` (project.rs lines 134-166), taking the
already-loaded lock document: walk every lock entry, then check every
root crate was found. -/
def Project.parse_lock_file (cfg : Config) (lock : Toml) (root_crates : List RootCrate)
    (root_deps_map : RootDepsMap) : PResult DepGraph :=
  match parseLockPackages cfg lock root_crates root_deps_map with
  | Except.error e => Except.error e
  | Except.ok dg2 => checkRoots root_crates dg2

/-- Whether a dependency sub-table carries `optional = true`
(the `if let Some(&Value::Boolean(true))` of project.rs line 86). -/
def isOptionalTrue : Option Toml → Bool
  | some (Toml.boolean true) => true
  | _ => false

/-- The `[dependencies]` loop of `parse_root_deps` (project.rs
lines 83-99) as a step on the accumulating dep-kinds map. -/
def depsStep (cfg : Config) (manifest : Toml) (m : DepKindsMap) : DepKindsMap :=
  match manifest.get "dependencies" with
  | some t =>
    match t.as_table with
    | some entries =>
      entries.foldl
        (fun m p =>
          if isOptionalTrue (p.2.get "optional") then
            (if cfg.optional_deps then addKind m p.1 DepKind.Optional else m)
          else if cfg.regular_deps then addKind m p.1 DepKind.Regular
          else m)
        m
    | none => m
  | none => m

/-- The `[build-dependencies]` loop (project.rs lines 101-109). -/
def buildStep (cfg : Config) (manifest : Toml) (m : DepKindsMap) : DepKindsMap :=
  if cfg.build_deps then
    match manifest.get "build-dependencies" with
    | some t =>
      match t.as_table with
      | some entries => entries.foldl (fun m p => addKind m p.1 DepKind.Build) m
      | none => m
    | none => m
  else m

/-- The `[dev-dependencies]` loop (project.rs lines 111-119). -/
def devStep (cfg : Config) (manifest : Toml) (m : DepKindsMap) : DepKindsMap :=
  if cfg.dev_deps then
    match manifest.get "dev-dependencies" with
    | some t =>
      match t.as_table with
      | some entries => entries.foldl (fun m p => addKind m p.1 DepKind.Dev) m
      | none => m
    | none => m
  else m

/-- `Project::parse_root_deps` (project.rs lines 46-131), taking the
already-loaded manifest document: extract the root crate identity from
`[package]` (three distinct input-shape errors), then build its
dep-kinds map from the three dependency tables. -/
def Project.parse_root_deps (cfg : Config) (manifest : Toml) :
    PResult (List RootCrate × RootDepsMap) :=
  match manifest.get "package" with
  | none => Except.error (PErr.cli (CliError.Toml noPackageMsg))
  | some t =>
    match t.as_table with
    | none => Except.error (PErr.cli (CliError.Toml packageNotTableMsg))
    | some table =>
      match mapGet table "name", mapGet table "version" with
      | some (Toml.str name), some (Toml.str ver) =>
        let dep_kinds_map := devStep cfg manifest (buildStep cfg manifest (depsStep cfg manifest []))
        Except.ok ([RootCrate.mk name ver], [(name, dep_kinds_map)])
      | _, _ => Except.error (PErr.cli (CliError.Toml nameVerMsg))

/-- The parsing half of `Project::graph` (project.rs lines 26-28):
manifest first, then the lock file with its results. -/
def parseStage (cfg : Config) (manifest lock : Toml) : PResult DepGraph :=
  match Project.parse_root_deps cfg manifest with
  | Except.error e => Except.error e
  | Except.ok rd => Project.parse_lock_file cfg lock rd.1 rd.2

/-- The post-parse stages `Project::graph` runs, as trace events. -/
inductive GraphEvent where
  | topSort : GraphEvent
  | setResolvedKind : GraphEvent
  | showVersionOnDuplicates : GraphEvent
deriving DecidableEq, Repr

/-- `Project::graph` (project.rs lines 25-43) with the three `DepGraph`
passes of the absent `src/graph.rs` abstracted as parameters
(`topological_sort`, `set_resolved_kind`, `show_version_on_duplicates`),
instrumented with a trace of which passes were invoked.  The `?`
propagation and the `include_vers` guard follow the source. -/
def Project.graph (ts srk : DepGraph → PResult DepGraph) (svod : DepGraph → DepGraph)
    (cfg : Config) (manifest lock : Toml) : PResult DepGraph × List GraphEvent :=
  match parseStage cfg manifest lock with
  | Except.error e => (Except.error e, [])
  | Except.ok dg =>
    match ts dg with
    | Except.error e => (Except.error e, [GraphEvent.topSort])
    | Except.ok dg1 =>
      match srk dg1 with
      | Except.error e => (Except.error e, [GraphEvent.topSort, GraphEvent.setResolvedKind])
      | Except.ok dg2 =>
        if !cfg.include_vers then
          (Except.ok (svod dg2),
           [GraphEvent.topSort, GraphEvent.setResolvedKind, GraphEvent.showVersionOnDuplicates])
        else (Except.ok dg2, [GraphEvent.topSort, GraphEvent.setResolvedKind])

/-! ### Basic facts about the embedded operations -/

/-- Whether an optional TOML value is present and a string. -/
def tomlIsStr : Option Toml → Bool
  | some (Toml.str _) => true
  | _ => false

/-- Whether every dependency string of a lock entry splits into at
least two tokens (so `dep_vec[1]` does not panic). -/
def depsWFb (pkg : Toml) : Bool :=
  match pkg.get "dependencies" with
  | some (Toml.arr deps) => deps.all (fun d => decide (2 ≤ (depTokens d).length))
  | _ => true

/-- A lock entry that parses without panicking: string name, string
version, and well-formed dependency strings. -/
def pkgWFb (pkg : Toml) : Bool :=
  tomlIsStr (pkg.get "name") && tomlIsStr (pkg.get "version") && depsWFb pkg

/-- Whether the configured filter lets a crate name through
(`true` when no filter is configured). -/
def filterAllows (cfg : Config) (name : String) : Bool :=
  match cfg.filter with
  | some filter_deps => filter_deps.contains name
  | none => true

/-- Every node of the graph has a name the filter set lets through. -/
def nodesIn (fs : List String) (dg : DepGraph) : Prop :=
  ∀ p ∈ dg.nodes, fs.contains p.1 = true

/-- The given optional TOML value, if a table, has no entry keyed `d`. -/
def tableNoKey (o : Option Toml) (d : String) : Prop :=
  ∀ t entries, o = some t → t.as_table = some entries → ∀ p ∈ entries, p.1 ≠ d

/-- Whether a parse result is the consistency (version-mismatch) error,
i.e. a returned `CliError::Generic`. -/
def isConsistencyErrB (r : PResult DepGraph) : Bool :=
  match r with
  | Except.error (PErr.cli (CliError.Generic _)) => true
  | _ => false

/-! ### Concrete documents used to instantiate the theorems -/

/-- A configuration with regular deps only and no filter. -/
def cfgPlain : Config :=
  { optional_deps := false, regular_deps := true, build_deps := false,
    dev_deps := false, include_vers := false, filter := none }

/-- A minimal manifest: package `foo` version `1.0`, no dependency tables. -/
def manifestW : Toml :=
  Toml.table [("package", Toml.table [("name", Toml.str "foo"), ("version", Toml.str "1.0")])]

/-- A lock document resolving `foo 1.0` with two dependencies. -/
def lockW : Toml :=
  Toml.table [("package", Toml.arr
    [Toml.table [("name", Toml.str "foo"), ("version", Toml.str "1.0"),
                 ("dependencies", Toml.arr [Toml.str "bar 0.2", Toml.str "baz 0.3 sha256"])],
     Toml.table [("name", Toml.str "bar"), ("version", Toml.str "0.2")],
     Toml.table [("name", Toml.str "baz"), ("version", Toml.str "0.3")]])]

/-- The graph `parse_lock_file cfgPlain lockW` builds. -/
def dgW : DepGraph :=
  { cfg := cfgPlain, nodes := [("foo", "1.0"), ("bar", "0.2"), ("baz", "0.3")],
    edges := [], root_deps_map := [("foo", [])] }

/-- An empty filter set: every lock entry is skipped. -/
def cfgEmptyFilter : Config := { cfgPlain with filter := some [] }

/-- A lock document whose only entry resolves `foo` at version `2.0`. -/
def lockMismatch : Toml :=
  Toml.table [("package", Toml.arr
    [Toml.table [("name", Toml.str "foo"), ("version", Toml.str "2.0")]])]

/-- A filter set containing only the root crate name `root`. -/
def cfgRootFilter : Config := { cfgPlain with filter := some ["root"] }

/-- A manifest for package `root` version `1.0`. -/
def manifestRoot : Toml :=
  Toml.table [("package", Toml.table [("name", Toml.str "root"), ("version", Toml.str "1.0")])]

/-- A lock document with entries `root 1.0` and `bar 0.1`. -/
def lockRootBar : Toml :=
  Toml.table [("package", Toml.arr
    [Toml.table [("name", Toml.str "root"), ("version", Toml.str "1.0")],
     Toml.table [("name", Toml.str "bar"), ("version", Toml.str "0.1")]])]

/-- The graph built from `lockRootBar` under `cfgRootFilter`:
the `bar` entry never becomes a node. -/
def dgRootOnly : DepGraph :=
  { cfg := cfgRootFilter, nodes := [("root", "1.0")],
    edges := [], root_deps_map := [("root", [])] }

/-- A manifest declaring an `optional = true` dependency `opt` and a
regular dependency `reg`. -/
def manifestOpt : Toml :=
  Toml.table [("package", Toml.table [("name", Toml.str "root"), ("version", Toml.str "1.0")]),
    ("dependencies", Toml.table
      [("opt", Toml.table [("optional", Toml.boolean true)]),
       ("reg", Toml.table [])])]

/-- A lock entry whose dependency string has a single token. -/
def pkgShortDep : Toml :=
  Toml.table [("name", Toml.str "foo"), ("version", Toml.str "1.0"),
    ("dependencies", Toml.arr [Toml.str "bar"])]

/-- A lock entry with a non-string dependency entry (read as `""`). -/
def pkgNonStrDep : Toml :=
  Toml.table [("name", Toml.str "foo"), ("version", Toml.str "1.0"),
    ("dependencies", Toml.arr [Toml.int 3])]

/-- The `bar 0.1` lock entry on its own. -/
def pkgBar : Toml :=
  Toml.table [("name", Toml.str "bar"), ("version", Toml.str "0.1")]

/-- A filter set disjoint from every crate in `lockW` and `manifestW`. -/
def cfgDisjointFilter : Config := { cfgPlain with filter := some ["x"] }

/-- A topological-sort stand-in that always reports a cycle. -/
def tsCycle : DepGraph → PResult DepGraph :=
  fun _ => Except.error (PErr.cli (CliError.Generic "cyclic dependency detected"))

/-- A pass stand-in that succeeds without changing the graph. -/
def passId : DepGraph → PResult DepGraph := fun dg => Except.ok dg

theorem findPair_some (name ver : String) (l : List (String × String)) (i : Nat)
    (h : findPair name ver l = some i) : l.get? i = some (name, ver) := by
  induction l generalizing i with
  | nil => simp [findPair] at h
  | cons p rest ih =>
    unfold findPair at h
    by_cases hp : p.1 = name ∧ p.2 = ver
    · simp only [if_pos hp, Option.some.injEq] at h
      subst h
      have hpv : p = (name, ver) := Prod.ext hp.1 hp.2
      simp [hpv]
    · simp only [if_neg hp] at h
      cases hrest : findPair name ver rest with
      | none => simp [hrest] at h
      | some j =>
        simp only [hrest, Option.map_some] at h
        cases h
        simpa using ih j hrest

theorem findPair_none_of_names (name ver : String) (l : List (String × String))
    (h : ∀ p ∈ l, p.1 ≠ name) : findPair name ver l = none := by
  induction l with
  | nil => rfl
  | cons p rest ih =>
    have hp : ¬ (p.1 = name ∧ p.2 = ver) := fun hc => h p (by simp) hc.1
    simp [findPair, hp, ih (fun q hq => h q (by simp [hq]))]

theorem get?_append_left {α : Type} (l t : List α) (i : Nat) (x : α)
    (h : l.get? i = some x) : (l ++ t).get? i = some x := by
  induction l generalizing i with
  | nil => simp [List.get?] at h
  | cons a rest ih =>
    cases i with
    | zero => simpa using h
    | succ n => simpa using ih n (by simpa using h)

theorem find_or_add_cfg (dg : DepGraph) (n v : String) :
    ((dg.find_or_add n v).2).cfg = dg.cfg := by
  unfold DepGraph.find_or_add
  cases dg.find n v <;> rfl

theorem find_or_add_rdm (dg : DepGraph) (n v : String) :
    ((dg.find_or_add n v).2).root_deps_map = dg.root_deps_map := by
  unfold DepGraph.find_or_add
  cases dg.find n v <;> rfl

theorem find_or_add_edges (dg : DepGraph) (n v : String) :
    ((dg.find_or_add n v).2).edges = dg.edges := by
  unfold DepGraph.find_or_add
  cases dg.find n v <;> rfl

theorem find_or_add_nodes (dg : DepGraph) (n v : String) :
    ((dg.find_or_add n v).2).nodes = dg.nodes ∨
      ((dg.find_or_add n v).2).nodes = dg.nodes ++ [(n, v)] := by
  unfold DepGraph.find_or_add
  cases dg.find n v
  · exact Or.inr rfl
  · exact Or.inl rfl

theorem find_or_add_get (dg : DepGraph) (n v : String) :
    ((dg.find_or_add n v).2).nodes.get? (dg.find_or_add n v).1 = some (n, v) := by
  unfold DepGraph.find_or_add
  cases hf : dg.find n v with
  | some i => simp only [findPair_some n v dg.nodes i hf]
  | none =>
    show (dg.nodes ++ [(n, v)]).get? dg.nodes.length = some (n, v)
    induction dg.nodes with
    | nil => rfl
    | cons a rest ih => exact ih

theorem add_child_cfg (dg : DepGraph) (id : Nat) (dn dv : String) :
    (dg.add_child id dn dv).cfg = dg.cfg := by
  by_cases hmem : (id, (dg.find_or_add dn dv).1) ∈ (dg.find_or_add dn dv).2.edges
  · simp [DepGraph.add_child, hmem, find_or_add_cfg]
  · simp [DepGraph.add_child, hmem, find_or_add_cfg]

theorem add_child_rdm (dg : DepGraph) (id : Nat) (dn dv : String) :
    (dg.add_child id dn dv).root_deps_map = dg.root_deps_map := by
  by_cases hmem : (id, (dg.find_or_add dn dv).1) ∈ (dg.find_or_add dn dv).2.edges
  · simp [DepGraph.add_child, hmem, find_or_add_rdm]
  · simp [DepGraph.add_child, hmem, find_or_add_rdm]

theorem add_child_nodes (dg : DepGraph) (id : Nat) (dn dv : String) :
    (dg.add_child id dn dv).nodes = dg.nodes ∨
      (dg.add_child id dn dv).nodes = dg.nodes ++ [(dn, dv)] := by
  by_cases hmem : (id, (dg.find_or_add dn dv).1) ∈ (dg.find_or_add dn dv).2.edges
  · simpa [DepGraph.add_child, hmem] using find_or_add_nodes dg dn dv
  · simpa [DepGraph.add_child, hmem] using find_or_add_nodes dg dn dv

theorem add_child_edges (dg : DepGraph) (id : Nat) (dn dv : String) :
    (dg.add_child id dn dv).edges = dg.edges ∨
      ∃ cid, (dg.add_child id dn dv).edges = dg.edges ++ [(id, cid)] ∧
        (dg.add_child id dn dv).nodes.get? cid = some (dn, dv) := by
  by_cases hmem : (id, (dg.find_or_add dn dv).1) ∈ (dg.find_or_add dn dv).2.edges
  · exact Or.inl (by simpa [DepGraph.add_child, hmem] using find_or_add_edges dg dn dv)
  · refine Or.inr ⟨(dg.find_or_add dn dv).1, ?_, ?_⟩
    · simpa [DepGraph.add_child, hmem] using
        congrArg (fun e => e ++ [(id, (dg.find_or_add dn dv).1)]) (find_or_add_edges dg dn dv)
    · simpa [DepGraph.add_child, hmem] using find_or_add_get dg dn dv

theorem tokens_two_le {l : List String} (h : 2 ≤ l.length) :
    ∃ a b r, l = a :: b :: r := by
  match l, h with
  | a :: b :: r, _ => exact ⟨a, b, r, rfl⟩

/-! ### Claim theorems -/

/-- C7: for every lock-file dependency string with at least two
space-separated tokens, `parse_package` determines the child edge solely
from the first token (name) and second token (version); tokens beyond
the first two have no effect on the resulting graph. -/
theorem dep_string_extra_tokens_ignored (dg : DepGraph) (id : Nat) (name : String)
    (d1 d2 : Toml) (a b : String) (r1 r2 : List String)
    (h1 : depTokens d1 = a :: b :: r1) (h2 : depTokens d2 = a :: b :: r2) :
    processDep dg id name d1 = processDep dg id name d2 := by
  simp [processDep, h1, h2]

/-- Witness for C7 at a concrete input: a dependency string with a
version-disambiguating suffix behaves like the two-token string. -/
theorem dep_string_extra_tokens_ignored_witness :
    processDep (DepGraph.new cfgPlain) 0 "foo" (Toml.str "bar 0.2 extra tokens") =
      processDep (DepGraph.new cfgPlain) 0 "foo" (Toml.str "bar 0.2") :=
  dep_string_extra_tokens_ignored (DepGraph.new cfgPlain) 0 "foo"
    (Toml.str "bar 0.2 extra tokens") (Toml.str "bar 0.2")
    "bar" "0.2" ["extra", "tokens"] [] (by rfl) (by rfl)

/-- C8: `parse_package` is not total on dependency strings with fewer
than two space-separated tokens: both a one-token string and a
non-string entry (read as the empty string) hit the out-of-bounds
indexing panic at position 1 instead of returning a `CliResult` error. -/
theorem dep_string_short_panics :
    parse_package (DepGraph.new cfgPlain) pkgShortDep [] =
      Except.error (PErr.panic (panicIndex1 1)) ∧
    parse_package (DepGraph.new cfgPlain) pkgNonStrDep [] =
      Except.error (PErr.panic (panicIndex1 1)) :=
  ⟨rfl, rfl⟩

/-- C10: a manifest lacking a `[package]` table, or whose `package`
value is not a table, or whose `[package]` table lacks a string name or
string version, makes `parse_root_deps` return the corresponding
input-shape error instead of building a root-deps map. -/
theorem malformed_package_table_error (cfg : Config) (manifest : Toml) :
    (manifest.get "package" = none →
      Project.parse_root_deps cfg manifest =
        Except.error (PErr.cli (CliError.Toml noPackageMsg))) ∧
    (∀ t, manifest.get "package" = some t → t.as_table = none →
      Project.parse_root_deps cfg manifest =
        Except.error (PErr.cli (CliError.Toml packageNotTableMsg))) ∧
    (∀ pt, manifest.get "package" = some (Toml.table pt) →
      tomlIsStr (mapGet pt "name") = false ∨ tomlIsStr (mapGet pt "version") = false →
      Project.parse_root_deps cfg manifest =
        Except.error (PErr.cli (CliError.Toml nameVerMsg))) := by
  refine ⟨?_, ?_, ?_⟩
  · intro h
    simp [Project.parse_root_deps, h]
  · intro t h ht
    simp [Project.parse_root_deps, h, ht]
  · intro pt hp hbad
    cases hname : mapGet pt "name" with
    | none => simp [Project.parse_root_deps, hp, Toml.as_table, hname]
    | some nv =>
      cases hver : mapGet pt "version" with
      | none => cases nv <;> simp [Project.parse_root_deps, hp, Toml.as_table, hname, hver]
      | some vv =>
        cases nv <;> cases vv <;>
          simp_all [Project.parse_root_deps, Toml.as_table, tomlIsStr]

/-- Witness for C10 at a concrete input: the empty manifest document is
rejected with the missing-`[package]` error. -/
theorem malformed_package_table_error_witness :
    Project.parse_root_deps cfgPlain (Toml.table []) =
      Except.error (PErr.cli (CliError.Toml noPackageMsg)) :=
  (malformed_package_table_error cfgPlain (Toml.table [])).1 rfl

/-- C9: when any of the `dependencies`, `build-dependencies` or
`dev-dependencies` tables is absent, `parse_root_deps` still succeeds
and the missing table contributes zero entries to the root-deps map;
absence of these optional sub-tables is never an error. -/
theorem missing_dep_tables_zero_entries (cfg : Config) (manifest : Toml)
    (pt : List (String × Toml)) (n v : String)
    (hp : manifest.get "package" = some (Toml.table pt))
    (hn : mapGet pt "name" = some (Toml.str n))
    (hv : mapGet pt "version" = some (Toml.str v)) :
    Project.parse_root_deps cfg manifest =
      Except.ok ([RootCrate.mk n v],
        [(n, devStep cfg manifest (buildStep cfg manifest (depsStep cfg manifest [])))]) ∧
    (manifest.get "dependencies" = none → ∀ m, depsStep cfg manifest m = m) ∧
    (manifest.get "build-dependencies" = none → ∀ m, buildStep cfg manifest m = m) ∧
    (manifest.get "dev-dependencies" = none → ∀ m, devStep cfg manifest m = m) ∧
    (manifest.get "dependencies" = none → manifest.get "build-dependencies" = none →
      manifest.get "dev-dependencies" = none →
      Project.parse_root_deps cfg manifest = Except.ok ([RootCrate.mk n v], [(n, [])])) := by
  refine ⟨?_, ?_, ?_, ?_, ?_⟩
  · simp [Project.parse_root_deps, hp, Toml.as_table, hn, hv]
  · intro h m
    simp [depsStep, h]
  · intro h m
    simp [buildStep, h]
  · intro h m
    simp [devStep, h]
  · intro h1 h2 h3
    simp [Project.parse_root_deps, hp, Toml.as_table, hn, hv,
      depsStep, buildStep, devStep, h1, h2, h3]

/-- Witness for C9 at a concrete input: a manifest with none of the
three dependency tables parses to a root-deps map with zero entries. -/
theorem missing_dep_tables_zero_entries_witness :
    Project.parse_root_deps cfgPlain manifestW =
      Except.ok ([RootCrate.mk "foo" "1.0"], [("foo", [])]) :=
  (missing_dep_tables_zero_entries cfgPlain manifestW
    [("name", Toml.str "foo"), ("version", Toml.str "1.0")]
    "foo" "1.0" rfl rfl rfl).2.2.2.2 rfl rfl rfl

theorem isSome_of_not_isNone {α : Type} {o : Option α} (h : ¬ o.isNone = true) :
    o.isSome = true := by
  cases o <;> simp_all

theorem checkRoots_ok (rcs : List RootCrate) (dg dg' : DepGraph)
    (h : checkRoots rcs dg = Except.ok dg') :
    dg' = dg ∧ ∀ rc ∈ rcs, (dg.find rc.name rc.ver).isSome = true := by
  induction rcs with
  | nil =>
    simp only [checkRoots, Except.ok.injEq] at h
    exact ⟨h.symm, by simp⟩
  | cons rc rest ih =>
    unfold checkRoots at h
    by_cases hfind : (dg.find rc.name rc.ver).isNone = true
    · simp [hfind] at h
    · simp only [if_neg hfind] at h
      rcases ih h with ⟨he, hall⟩
      refine ⟨he, ?_⟩
      intro rc2 hm
      rcases List.mem_cons.mp hm with hm1 | hm2
      · subst hm1
        exact isSome_of_not_isNone hfind
      · exact hall rc2 hm2

theorem checkRoots_missing (rcs : List RootCrate) (dg : DepGraph) (rc : RootCrate)
    (hmem : rc ∈ rcs) (hfind : (dg.find rc.name rc.ver).isNone = true) :
    ∃ rc0, rc0 ∈ rcs ∧ (dg.find rc0.name rc0.ver).isNone = true ∧
      checkRoots rcs dg =
        Except.error (PErr.cli (CliError.Toml (missingRootMsg rc0.name rc0.ver))) := by
  induction rcs with
  | nil => cases hmem
  | cons hd rest ih =>
    by_cases hhd : (dg.find hd.name hd.ver).isNone = true
    · exact ⟨hd, List.mem_cons_self hd rest, hhd, by simp [checkRoots, hhd]⟩
    · rcases List.mem_cons.mp hmem with hm1 | hm2
      · subst hm1
        exact absurd hfind hhd
      · rcases ih hm2 with ⟨rc0, h0, h1, h2⟩
        exact ⟨rc0, List.mem_cons_of_mem hd h0, h1, by simp [checkRoots, hhd, h2]⟩

/-- C1: after the full lock file is parsed, every root crate declared in
the manifest has a matching (name, version) node in the built graph; and
whenever the lookup fails for any root crate, the final check returns a
fatal error naming a missing crate and its version rather than
silently dropping it. -/
theorem parse_lock_file_root_crates_checked (cfg : Config) (lock : Toml)
    (rcs : List RootCrate) (rdm : RootDepsMap) :
    (∀ dg, Project.parse_lock_file cfg lock rcs rdm = Except.ok dg →
      ∀ rc ∈ rcs, (dg.find rc.name rc.ver).isSome = true) ∧
    (∀ dg rc, rc ∈ rcs → (dg.find rc.name rc.ver).isNone = true →
      ∃ rc0, rc0 ∈ rcs ∧ (dg.find rc0.name rc0.ver).isNone = true ∧
        checkRoots rcs dg =
          Except.error (PErr.cli (CliError.Toml (missingRootMsg rc0.name rc0.ver)))) := by
  constructor
  · intro dg h
    unfold Project.parse_lock_file at h
    cases hlp : parseLockPackages cfg lock rcs rdm with
    | error e => rw [hlp] at h; cases h
    | ok dg2 =>
      rw [hlp] at h
      rcases checkRoots_ok rcs dg2 dg h with ⟨he, hall⟩
      subst he
      exact hall
  · intro dg rc hmem hnone
    exact checkRoots_missing rcs dg rc hmem hnone

/-- Witness for C1 at a concrete input: the root crate `foo 1.0` has a
node in the graph built from a lock file that resolves it. -/
theorem parse_lock_file_root_crates_checked_witness :
    (dgW.find "foo" "1.0").isSome = true :=
  (parse_lock_file_root_crates_checked cfgPlain lockW [RootCrate.mk "foo" "1.0"]
    [("foo", [])]).1 dgW rfl (RootCrate.mk "foo" "1.0") (by simp)

/-- C3 counterexample: with filter set {"root"}, the `bar 0.1` entry of
the lock file package array never becomes a node — `parse_lock_file`
returns a graph without it, so the lock-file walk does not create a node
for every package entry and filtering is not deferred to render time. -/
theorem filter_prunes_during_build_counterexample :
    parseStage cfgRootFilter manifestRoot lockRootBar = Except.ok dgRootOnly ∧
    dgRootOnly.find "bar" "0.1" = none ∧
    dgRootOnly.find "root" "1.0" = some 0 :=
  ⟨rfl, rfl, rfl⟩

/-- C3 amended: when a filter set is configured, node and edge filtering
happens during graph construction, not at render time: `parse_package`
returns with the graph unchanged for any entry whose name is not in the
filter set, and the dependency loop likewise skips any dependency whose
name is not in the filter set. -/
theorem filter_skips_during_construction (dg : DepGraph) (pkg : Toml)
    (rcs : List RootCrate) (name ver : String) (fs : List String)
    (hn : pkg.get "name" = some (Toml.str name))
    (hv : pkg.get "version" = some (Toml.str ver))
    (hf : dg.cfg.filter = some fs) (hmem : fs.contains name = false) :
    parse_package dg pkg rcs = Except.ok dg ∧
    (∀ id nm dep dn dv r, depTokens dep = dn :: dv :: r → fs.contains dn = false →
      processDep dg id nm dep = Except.ok dg) := by
  have hmem2 : name ∉ fs := by simpa using hmem
  constructor
  · simp [parse_package, hn, hv, Toml.as_str, hf, hmem2]
  · intro id nm dep dn dv r ht hdn
    have hdn2 : dn ∉ fs := by simpa using hdn
    simp [processDep, ht, hf, hdn2]

/-- Witness for C3 (amended) at a concrete input: the `bar 0.1` entry is
skipped, leaving the graph unchanged, under filter {"root"}. -/
theorem filter_skips_during_construction_witness :
    parse_package dgRootOnly pkgBar [] = Except.ok dgRootOnly :=
  (filter_skips_during_construction dgRootOnly pkgBar [] "bar" "0.1" ["root"]
    rfl rfl rfl rfl).1

/-- C5: in `Project::graph`, kind resolution runs strictly after
topological ordering: if `topological_sort` fails, `graph` returns that
error without invoking `set_resolved_kind` or
`show_version_on_duplicates`; and `set_resolved_kind` is invoked only
once `topological_sort` has returned successfully. -/
theorem graph_kind_resolution_after_topsort (ts srk : DepGraph → PResult DepGraph)
    (svod : DepGraph → DepGraph) (cfg : Config) (manifest lock : Toml) :
    (∀ dg e, parseStage cfg manifest lock = Except.ok dg → ts dg = Except.error e →
      Project.graph ts srk svod cfg manifest lock = (Except.error e, [GraphEvent.topSort]) ∧
      GraphEvent.setResolvedKind ∉ (Project.graph ts srk svod cfg manifest lock).2 ∧
      GraphEvent.showVersionOnDuplicates ∉ (Project.graph ts srk svod cfg manifest lock).2) ∧
    (GraphEvent.setResolvedKind ∈ (Project.graph ts srk svod cfg manifest lock).2 →
      ∃ dg dg1, parseStage cfg manifest lock = Except.ok dg ∧ ts dg = Except.ok dg1) := by
  constructor
  · intro dg e hok hts
    refine ⟨?_, ?_, ?_⟩ <;> simp [Project.graph, hok, hts]
  · intro hmem
    cases hps : parseStage cfg manifest lock with
    | error e => simp [Project.graph, hps] at hmem
    | ok dg =>
      cases hts : ts dg with
      | error e => simp [Project.graph, hps, hts] at hmem
      | ok dg1 => exact ⟨dg, dg1, rfl, hts⟩

/-- Witness for C5 at a concrete input: with a failing sort pass, the
pipeline stops at the sort and neither later pass runs. -/
theorem graph_kind_resolution_after_topsort_witness :
    Project.graph tsCycle passId id cfgPlain manifestW lockW =
      (Except.error (PErr.cli (CliError.Generic "cyclic dependency detected")),
        [GraphEvent.topSort]) ∧
    GraphEvent.setResolvedKind ∉ (Project.graph tsCycle passId id cfgPlain manifestW lockW).2 ∧
    GraphEvent.showVersionOnDuplicates ∉
      (Project.graph tsCycle passId id cfgPlain manifestW lockW).2 :=
  (graph_kind_resolution_after_topsort tsCycle passId id cfgPlain manifestW lockW).1
    dgW (PErr.cli (CliError.Generic "cyclic dependency detected")) rfl rfl

theorem pkgWFb_name {pkg : Toml} (h : pkgWFb pkg = true) :
    ∃ nm, pkg.get "name" = some (Toml.str nm) := by
  unfold pkgWFb at h
  simp only [Bool.and_eq_true] at h
  rcases h with ⟨⟨h1, -⟩, -⟩
  cases hg : pkg.get "name" with
  | none => rw [hg] at h1; simp [tomlIsStr] at h1
  | some t =>
    cases t
    case str s => exact ⟨s, rfl⟩
    all_goals (rw [hg] at h1; simp [tomlIsStr] at h1)

theorem pkgWFb_version {pkg : Toml} (h : pkgWFb pkg = true) :
    ∃ vr, pkg.get "version" = some (Toml.str vr) := by
  unfold pkgWFb at h
  simp only [Bool.and_eq_true] at h
  rcases h with ⟨⟨-, h2⟩, -⟩
  cases hg : pkg.get "version" with
  | none => rw [hg] at h2; simp [tomlIsStr] at h2
  | some t =>
    cases t
    case str s => exact ⟨s, rfl⟩
    all_goals (rw [hg] at h2; simp [tomlIsStr] at h2)

theorem pkgWFb_deps {pkg : Toml} (h : pkgWFb pkg = true) {deps : List Toml}
    (hd : pkg.get "dependencies" = some (Toml.arr deps)) :
    ∀ d ∈ deps, 2 ≤ (depTokens d).length := by
  unfold pkgWFb depsWFb at h
  rw [hd] at h
  simp only [Bool.and_eq_true] at h
  rcases h with ⟨-, h3⟩
  intro d hdm
  simpa using List.all_eq_true.mp h3 d hdm

theorem processDep_ok (dg : DepGraph) (id : Nat) (nm : String) (dep : Toml)
    (hwf : 2 ≤ (depTokens dep).length) :
    ∃ dg', processDep dg id nm dep = Except.ok dg' ∧
      dg'.cfg = dg.cfg ∧ dg'.root_deps_map = dg.root_deps_map := by
  rcases tokens_two_le hwf with ⟨a, b, r, ht⟩
  simp only [processDep, ht]
  split
  · exact ⟨dg, rfl, rfl, rfl⟩
  · split
    · exact ⟨dg, rfl, rfl, rfl⟩
    · exact ⟨dg.add_child id a b, rfl, add_child_cfg dg id a b, add_child_rdm dg id a b⟩

theorem processDeps_ok (id : Nat) (nm : String) :
    ∀ (deps : List Toml) (dg : DepGraph), (∀ d ∈ deps, 2 ≤ (depTokens d).length) →
      ∃ dg', processDeps dg id nm deps = Except.ok dg' ∧
        dg'.cfg = dg.cfg ∧ dg'.root_deps_map = dg.root_deps_map := by
  intro deps
  induction deps with
  | nil => exact fun dg _ => ⟨dg, rfl, rfl, rfl⟩
  | cons d rest ih =>
    intro dg hall
    rcases processDep_ok dg id nm d (hall d (by simp)) with ⟨dg1, h1, hc, hr⟩
    rcases ih dg1 (fun x hx => hall x (by simp [hx])) with ⟨dg2, h2, hc2, hr2⟩
    exact ⟨dg2, by simp [processDeps, h1, h2], by rw [hc2, hc], by rw [hr2, hr]⟩

theorem parse_package_step (n v : String) (dg : DepGraph) (pkg : Toml)
    (hkeys : ∀ k, (mapGet dg.root_deps_map k).isSome = true → k = n)
    (hwf : pkgWFb pkg = true) :
    (∃ dg', parse_package dg pkg [RootCrate.mk n v] = Except.ok dg' ∧
      dg'.cfg = dg.cfg ∧ dg'.root_deps_map = dg.root_deps_map) ∨
    (∃ w, w ≠ v ∧ parse_package dg pkg [RootCrate.mk n v] =
      Except.error (PErr.cli (CliError.Generic (versionMismatchMsg w n)))) := by
  rcases pkgWFb_name hwf with ⟨nm, hn⟩
  rcases pkgWFb_version hwf with ⟨vr, hv⟩
  simp only [parse_package, hn, hv, Toml.as_str]
  split
  · exact Or.inl ⟨dg, rfl, rfl, rfl⟩
  · unfold parsePackageBody
    split
    next hcond =>
      have hnm : nm = n := hkeys nm (by rw [← find_or_add_rdm dg nm vr]; exact hcond.1)
      subst hnm
      refine Or.inr ⟨vr, ?_, rfl⟩
      intro hvv
      apply hcond.2
      simp [hvv]
    next hcond =>
      cases hd : pkg.get "dependencies" with
      | none =>
        exact Or.inl ⟨(dg.find_or_add nm vr).2, rfl,
          find_or_add_cfg dg nm vr, find_or_add_rdm dg nm vr⟩
      | some t =>
        cases t
        case arr deps =>
          rcases processDeps_ok (dg.find_or_add nm vr).1 nm deps (dg.find_or_add nm vr).2
            (pkgWFb_deps hwf hd) with ⟨dg2, h2, hc2, hr2⟩
          refine Or.inl ⟨dg2, h2, ?_, ?_⟩
          · rw [hc2, find_or_add_cfg]
          · rw [hr2, find_or_add_rdm]
        all_goals
          exact Or.inl ⟨(dg.find_or_add nm vr).2, rfl,
            find_or_add_cfg dg nm vr, find_or_add_rdm dg nm vr⟩

theorem parse_package_mismatch (n v w : String) (dg : DepGraph) (pkg : Toml)
    (hn : pkg.get "name" = some (Toml.str n)) (hv : pkg.get "version" = some (Toml.str w))
    (hne : w ≠ v) (hfa : filterAllows dg.cfg n = true)
    (hkey : (mapGet dg.root_deps_map n).isSome = true) :
    parse_package dg pkg [RootCrate.mk n v] =
      Except.error (PErr.cli (CliError.Generic (versionMismatchMsg w n))) := by
  simp only [parse_package, hn, hv, Toml.as_str]
  have hcond : (match dg.cfg.filter with
      | some filter_deps => !(filter_deps.contains n)
      | none => false) = false := by
    unfold filterAllows at hfa
    cases hft : dg.cfg.filter with
    | none => rfl
    | some fd =>
      rw [hft] at hfa
      simp at hfa
      simp [hfa]
  simp only [hcond, Bool.false_eq_true, if_false]
  unfold parsePackageBody
  split
  next => rfl
  next hcond2 =>
    exfalso
    apply hcond2
    constructor
    · rw [find_or_add_rdm]
      exact hkey
    · simp [Ne.symm hne]

theorem mapGet_singleton_isSome {α : Type} (n k : String) (x : α)
    (h : (mapGet [(n, x)] k).isSome = true) : k = n := by
  unfold mapGet at h
  by_cases hnk : n = k
  · exact hnk.symm
  · simp [hnk, mapGet] at h

theorem parsePackages_mismatch (n v : String) :
    ∀ (pkgs : List Toml) (dg : DepGraph),
      (∀ p ∈ pkgs, pkgWFb p = true) →
      (∃ p ∈ pkgs, p.get "name" = some (Toml.str n) ∧
        ∃ w, p.get "version" = some (Toml.str w) ∧ w ≠ v) →
      (∀ k, (mapGet dg.root_deps_map k).isSome = true → k = n) →
      (mapGet dg.root_deps_map n).isSome = true →
      filterAllows dg.cfg n = true →
      ∃ w, w ≠ v ∧ parsePackages dg [RootCrate.mk n v] pkgs =
        Except.error (PErr.cli (CliError.Generic (versionMismatchMsg w n))) := by
  intro pkgs
  induction pkgs with
  | nil =>
    intro dg _ hmis
    simp at hmis
  | cons p rest ih =>
    intro dg hwf hmis hkeys hkey hfa
    rcases hmis with ⟨q, hq, hqn, w, hqv, hwv⟩
    rcases List.mem_cons.mp hq with hq1 | hq2
    · subst hq1
      have herr := parse_package_mismatch n v w dg q hqn hqv hwv hfa hkey
      exact ⟨w, hwv, by simp [parsePackages, herr]⟩
    · rcases parse_package_step n v dg p hkeys (hwf p (by simp)) with
        ⟨dg1, hok, hc, hr⟩ | ⟨w2, hw2, herr⟩
      · rcases ih dg1 (fun x hx => hwf x (by simp [hx])) ⟨q, hq2, hqn, w, hqv, hwv⟩
          (by rw [hr]; exact hkeys) (by rw [hr]; exact hkey) (by rw [hc]; exact hfa)
          with ⟨w3, hw3, h3⟩
        exact ⟨w3, hw3, by simp [parsePackages, hok, h3]⟩
      · exact ⟨w2, hw2, by simp [parsePackages, herr]⟩

/-- C2 (amended): for every lock-file package entry whose name equals
the root crate's name, if its version differs from the manifest's
declared version and the configured filter (if any) contains that name,
then parsing the lock file fails with the consistency error identifying
the crate and a mismatched version. -/
theorem parse_lock_file_version_mismatch_consistency (cfg : Config) (manifest lock : Toml)
    (pt : List (String × Toml)) (n v : String) (pkgs : List Toml)
    (hp : manifest.get "package" = some (Toml.table pt))
    (hn : mapGet pt "name" = some (Toml.str n))
    (hv : mapGet pt "version" = some (Toml.str v))
    (hfa : filterAllows cfg n = true)
    (hpkgs : lock.get "package" = some (Toml.arr pkgs))
    (hwf : ∀ p ∈ pkgs, pkgWFb p = true)
    (hwfroot : ∀ r, lock.get "root" = some r → pkgWFb r = true)
    (hmis : ∃ p ∈ pkgs, p.get "name" = some (Toml.str n) ∧
      ∃ w, p.get "version" = some (Toml.str w) ∧ w ≠ v) :
    ∃ w, w ≠ v ∧ parseStage cfg manifest lock =
      Except.error (PErr.cli (CliError.Generic (versionMismatchMsg w n))) := by
  have hrd : Project.parse_root_deps cfg manifest =
      Except.ok ([RootCrate.mk n v],
        [(n, devStep cfg manifest (buildStep cfg manifest (depsStep cfg manifest [])))]) := by
    simp [Project.parse_root_deps, hp, Toml.as_table, hn, hv]
  have hkeys0 : ∀ k, (mapGet
      [(n, devStep cfg manifest (buildStep cfg manifest (depsStep cfg manifest [])))] k).isSome
        = true → k = n :=
    fun k hk => mapGet_singleton_isSome n k _ hk
  have hkey0 : (mapGet
      [(n, devStep cfg manifest (buildStep cfg manifest (depsStep cfg manifest [])))] n).isSome
        = true := by
    simp [mapGet]
  -- the graph the walk starts from
  have hstage : parseStage cfg manifest lock = Project.parse_lock_file cfg lock
      [RootCrate.mk n v]
      [(n, devStep cfg manifest (buildStep cfg manifest (depsStep cfg manifest [])))] := by
    simp [parseStage, hrd]
  rw [hstage]
  unfold Project.parse_lock_file parseLockPackages
  cases hr : lock.get "root" with
  | none =>
    rcases parsePackages_mismatch n v pkgs
      { DepGraph.new cfg with
          root_deps_map :=
            [(n, devStep cfg manifest (buildStep cfg manifest (depsStep cfg manifest [])))] }
      hwf hmis hkeys0 hkey0 hfa with ⟨w, hw, herr⟩
    exact ⟨w, hw, by simp [hpkgs, herr]⟩
  | some r =>
    rcases parse_package_step n v
      { DepGraph.new cfg with
          root_deps_map :=
            [(n, devStep cfg manifest (buildStep cfg manifest (depsStep cfg manifest [])))] }
      r hkeys0 (hwfroot r hr) with ⟨dg1, hok, hc, hrm⟩ | ⟨w2, hw2, herr⟩
    · rcases parsePackages_mismatch n v pkgs dg1 hwf hmis
        (by rw [hrm]; exact hkeys0) (by rw [hrm]; exact hkey0) (by rw [hc]; exact hfa)
        with ⟨w, hw, herr2⟩
      exact ⟨w, hw, by simp [hok, hpkgs, herr2]⟩
    · exact ⟨w2, hw2, by simp [herr]⟩

/-- C2 counterexample: with an empty filter set configured, the lock
file resolves root crate `foo` at version `2.0` while the manifest
declares `1.0`, yet lock parsing does not fail with the consistency
(`CliError::Generic`) error the claim requires — the filter's early
return skips the entry, and the failure is the missing-root
(`CliError::Toml`) error instead. -/
theorem version_mismatch_not_consistency_counterexample :
    Project.parse_root_deps cfgEmptyFilter manifestW =
      Except.ok ([RootCrate.mk "foo" "1.0"], [("foo", [])]) ∧
    lockMismatch.get "package" = some (Toml.arr
      [Toml.table [("name", Toml.str "foo"), ("version", Toml.str "2.0")]]) ∧
    parseStage cfgEmptyFilter manifestW lockMismatch =
      Except.error (PErr.cli (CliError.Toml (missingRootMsg "foo" "1.0"))) ∧
    isConsistencyErrB (parseStage cfgEmptyFilter manifestW lockMismatch) = false :=
  ⟨rfl, rfl, rfl, rfl⟩

/-- Witness for C2 (amended) at a concrete input: with no filter
configured, the `foo 2.0` lock entry against manifest `foo 1.0` makes
lock parsing fail with the consistency error. -/
theorem parse_lock_file_version_mismatch_consistency_witness :
    ∃ w, w ≠ "1.0" ∧ parseStage cfgPlain manifestW lockMismatch =
      Except.error (PErr.cli (CliError.Generic (versionMismatchMsg w "foo"))) :=
  parse_lock_file_version_mismatch_consistency cfgPlain manifestW lockMismatch
    [("name", Toml.str "foo"), ("version", Toml.str "1.0")] "foo" "1.0"
    [Toml.table [("name", Toml.str "foo"), ("version", Toml.str "2.0")]]
    rfl rfl rfl rfl rfl (by decide) (fun r hr => Option.noConfusion hr)
    ⟨Toml.table [("name", Toml.str "foo"), ("version", Toml.str "2.0")],
      by simp, rfl, "2.0", rfl, by decide⟩

theorem processDep_c6 (fs : List String) (dg : DepGraph) (id : Nat) (nm : String) (dep : Toml)
    (hf : dg.cfg.filter = some fs) (hwf : 2 ≤ (depTokens dep).length)
    (hinv : nodesIn fs dg) :
    ∃ dg', processDep dg id nm dep = Except.ok dg' ∧
      dg'.cfg = dg.cfg ∧ dg'.root_deps_map = dg.root_deps_map ∧ nodesIn fs dg' := by
  rcases tokens_two_le hwf with ⟨a, b, r, ht⟩
  cases ha : fs.contains a with
  | false =>
    have ha2 : a ∉ fs := by simpa using ha
    refine ⟨dg, ?_, rfl, rfl, hinv⟩
    simp [processDep, ht, hf, ha2]
  | true =>
    have ha2 : a ∈ fs := by simpa using ha
    by_cases hskip : (match mapGet dg.root_deps_map nm with
        | some dep_kinds_map => (mapGet dep_kinds_map a).isNone
        | none => false) = true
    · refine ⟨dg, ?_, rfl, rfl, hinv⟩
      simp [processDep, ht, hf, ha2, hskip]
    · refine ⟨dg.add_child id a b, ?_, add_child_cfg dg id a b, add_child_rdm dg id a b, ?_⟩
      · simp [processDep, ht, hf, ha2, hskip]
      · intro p hp
        rcases add_child_nodes dg id a b with hnn | hnn
        · rw [hnn] at hp
          exact hinv p hp
        · rw [hnn] at hp
          rcases List.mem_append.mp hp with h | h
          · exact hinv p h
          · rw [List.mem_singleton] at h
            subst h
            exact ha

theorem processDeps_c6 (fs : List String) (id : Nat) (nm : String) :
    ∀ (deps : List Toml) (dg : DepGraph), dg.cfg.filter = some fs →
      (∀ d ∈ deps, 2 ≤ (depTokens d).length) → nodesIn fs dg →
      ∃ dg', processDeps dg id nm deps = Except.ok dg' ∧
        dg'.cfg = dg.cfg ∧ dg'.root_deps_map = dg.root_deps_map ∧ nodesIn fs dg' := by
  intro deps
  induction deps with
  | nil => exact fun dg _ _ hinv => ⟨dg, rfl, rfl, rfl, hinv⟩
  | cons d rest ih =>
    intro dg hfd hall hinv
    rcases processDep_c6 fs dg id nm d hfd (hall d (by simp)) hinv with ⟨dg1, h1, hc1, hr1, hi1⟩
    rcases ih dg1 (by rw [hc1]; exact hfd) (fun x hx => hall x (by simp [hx])) hi1
      with ⟨dg2, h2, hc2, hr2, hi2⟩
    exact ⟨dg2, by simp [processDeps, h1, h2], by rw [hc2, hc1], by rw [hr2, hr1], hi2⟩

theorem parse_package_c6 (fs : List String) (n : String) (dg : DepGraph) (pkg : Toml)
    (rcs : List RootCrate)
    (hf : dg.cfg.filter = some fs) (hn : fs.contains n = false)
    (hkeys : ∀ k, (mapGet dg.root_deps_map k).isSome = true → k = n)
    (hwf : pkgWFb pkg = true) (hinv : nodesIn fs dg) :
    ∃ dg', parse_package dg pkg rcs = Except.ok dg' ∧
      dg'.cfg = dg.cfg ∧ dg'.root_deps_map = dg.root_deps_map ∧ nodesIn fs dg' := by
  rcases pkgWFb_name hwf with ⟨nm, hnm⟩
  rcases pkgWFb_version hwf with ⟨vr, hv⟩
  cases hc : fs.contains nm with
  | false =>
    have hcm : nm ∉ fs := by simpa using hc
    refine ⟨dg, ?_, rfl, rfl, hinv⟩
    simp [parse_package, hnm, hv, Toml.as_str, hf, hcm]
  | true =>
    have hcm : nm ∈ fs := by simpa using hc
    have hrdmfalse : (mapGet dg.root_deps_map nm).isSome = false := by
      cases hx : (mapGet dg.root_deps_map nm).isSome with
      | false => rfl
      | true =>
        have hxn := hkeys nm hx
        subst hxn
        rw [hc] at hn
        cases hn
    have hinv2 : nodesIn fs (dg.find_or_add nm vr).2 := by
      intro p hp
      rcases find_or_add_nodes dg nm vr with hnn | hnn
      · rw [hnn] at hp
        exact hinv p hp
      · rw [hnn] at hp
        rcases List.mem_append.mp hp with h | h
        · exact hinv p h
        · rw [List.mem_singleton] at h
          subst h
          exact hc
    cases hd : pkg.get "dependencies" with
    | none =>
      refine ⟨(dg.find_or_add nm vr).2, ?_, find_or_add_cfg dg nm vr,
        find_or_add_rdm dg nm vr, hinv2⟩
      simp [parse_package, hnm, hv, Toml.as_str, hf, hcm, parsePackageBody,
        find_or_add_rdm, hrdmfalse, hd]
    | some t =>
      cases t
      case arr deps =>
        rcases processDeps_c6 fs (dg.find_or_add nm vr).1 nm deps (dg.find_or_add nm vr).2
          (by rw [find_or_add_cfg]; exact hf) (pkgWFb_deps hwf hd) hinv2
          with ⟨dg2, h2, hc2, hr2, hi2⟩
        refine ⟨dg2, ?_, by rw [hc2, find_or_add_cfg], by rw [hr2, find_or_add_rdm], hi2⟩
        simp [parse_package, hnm, hv, Toml.as_str, hf, hcm, parsePackageBody,
          find_or_add_rdm, hrdmfalse, hd, h2]
      all_goals
        refine ⟨(dg.find_or_add nm vr).2, ?_, find_or_add_cfg dg nm vr,
          find_or_add_rdm dg nm vr, hinv2⟩
      all_goals
        simp [parse_package, hnm, hv, Toml.as_str, hf, hcm, parsePackageBody,
          find_or_add_rdm, hrdmfalse, hd]

theorem parsePackages_c6 (fs : List String) (n : String) :
    ∀ (pkgs : List Toml) (dg : DepGraph) (rcs : List RootCrate),
      dg.cfg.filter = some fs → fs.contains n = false →
      (∀ k, (mapGet dg.root_deps_map k).isSome = true → k = n) →
      (∀ p ∈ pkgs, pkgWFb p = true) → nodesIn fs dg →
      ∃ dg', parsePackages dg rcs pkgs = Except.ok dg' ∧
        dg'.cfg = dg.cfg ∧ dg'.root_deps_map = dg.root_deps_map ∧ nodesIn fs dg' := by
  intro pkgs
  induction pkgs with
  | nil => exact fun dg rcs _ _ _ _ hinv => ⟨dg, rfl, rfl, rfl, hinv⟩
  | cons p rest ih =>
    intro dg rcs hfd hnf hkeys hwf hinv
    rcases parse_package_c6 fs n dg p rcs hfd hnf hkeys (hwf p (by simp)) hinv
      with ⟨dg1, h1, hc1, hr1, hi1⟩
    rcases ih dg1 rcs (by rw [hc1]; exact hfd) hnf (by rw [hr1]; exact hkeys)
      (fun x hx => hwf x (by simp [hx])) hi1 with ⟨dg2, h2, hc2, hr2, hi2⟩
    exact ⟨dg2, by simp [parsePackages, h1, h2], by rw [hc2, hc1], by rw [hr2, hr1], hi2⟩

theorem parse_lock_file_c6 (cfg : Config) (lock : Toml) (n v : String) (fs : List String)
    (dkm : DepKindsMap)
    (hf : cfg.filter = some fs) (hnf : fs.contains n = false)
    (hwf : ∀ pkgs, lock.get "package" = some (Toml.arr pkgs) → ∀ p ∈ pkgs, pkgWFb p = true)
    (hwfroot : ∀ r, lock.get "root" = some r → pkgWFb r = true) :
    Project.parse_lock_file cfg lock [RootCrate.mk n v] [(n, dkm)] =
      Except.error (PErr.cli (CliError.Toml (missingRootMsg n v))) := by
  have h0keys : ∀ k, (mapGet
      ({ DepGraph.new cfg with root_deps_map := [(n, dkm)] } : DepGraph).root_deps_map k).isSome
        = true → k = n :=
    fun k hk => mapGet_singleton_isSome n k dkm hk
  have h0inv : nodesIn fs { DepGraph.new cfg with root_deps_map := [(n, dkm)] } := by
    intro p hp
    simp [DepGraph.new] at hp
  have hroot : ∃ dg1, (match lock.get "root" with
      | some root =>
        parse_package { DepGraph.new cfg with root_deps_map := [(n, dkm)] } root
          [RootCrate.mk n v]
      | none =>
        Except.ok ({ DepGraph.new cfg with root_deps_map := [(n, dkm)] } : DepGraph)) =
          Except.ok dg1 ∧
      dg1.cfg = cfg ∧ dg1.root_deps_map = [(n, dkm)] ∧ nodesIn fs dg1 := by
    cases hr : lock.get "root" with
    | none => exact ⟨{ DepGraph.new cfg with root_deps_map := [(n, dkm)] }, rfl, rfl, rfl, h0inv⟩
    | some r =>
      rcases parse_package_c6 fs n { DepGraph.new cfg with root_deps_map := [(n, dkm)] } r
        [RootCrate.mk n v] hf hnf h0keys (hwfroot r hr) h0inv with ⟨dg1, h1, hc1, hr1, hi1⟩
      exact ⟨dg1, h1, hc1, hr1, hi1⟩
  rcases hroot with ⟨dg1, h1, hc1, hr1, hi1⟩
  have hpkgsres : ∃ dg2, (match lock.get "package" with
      | some (Toml.arr packages) => parsePackages dg1 [RootCrate.mk n v] packages
      | _ => Except.ok dg1) = Except.ok dg2 ∧ nodesIn fs dg2 := by
    cases hpk : lock.get "package" with
    | none => exact ⟨dg1, rfl, hi1⟩
    | some t =>
      cases t
      case arr pkgs =>
        rcases parsePackages_c6 fs n pkgs dg1 [RootCrate.mk n v]
          (by rw [hc1]; exact hf) hnf (by rw [hr1]; exact h0keys)
          (hwf pkgs hpk) hi1 with ⟨dg2, h2, hcc2, hrr2, hi2⟩
        exact ⟨dg2, h2, hi2⟩
      all_goals exact ⟨dg1, rfl, hi1⟩
  rcases hpkgsres with ⟨dg2, h2, hi2⟩
  have hlpp : parseLockPackages cfg lock [RootCrate.mk n v] [(n, dkm)] = Except.ok dg2 := by
    unfold parseLockPackages
    rw [h1]
    exact h2
  unfold Project.parse_lock_file
  rw [hlpp]
  have hfind : dg2.find n v = none :=
    findPair_none_of_names n v dg2.nodes (by
      intro p hp heq
      have hfc := hi2 p hp
      rw [heq, hnf] at hfc
      exact Bool.noConfusion hfc)
  simp [checkRoots, hfind]

/-- C6: for every configuration whose filter set does not contain the
root crate's name, lock-file parsing always returns the missing-root
error for that root crate — even when the lock file does contain a
package entry with that exact name and version — because the filter's
early return in `parse_package` runs before the node is created. -/
theorem filtered_root_missing_error (cfg : Config) (manifest lock : Toml)
    (pt : List (String × Toml)) (n v : String) (fs : List String)
    (hp : manifest.get "package" = some (Toml.table pt))
    (hn : mapGet pt "name" = some (Toml.str n))
    (hv : mapGet pt "version" = some (Toml.str v))
    (hf : cfg.filter = some fs) (hnf : fs.contains n = false)
    (hwf : ∀ pkgs, lock.get "package" = some (Toml.arr pkgs) → ∀ p ∈ pkgs, pkgWFb p = true)
    (hwfroot : ∀ r, lock.get "root" = some r → pkgWFb r = true) :
    parseStage cfg manifest lock =
      Except.error (PErr.cli (CliError.Toml (missingRootMsg n v))) := by
  have hrd : Project.parse_root_deps cfg manifest =
      Except.ok ([RootCrate.mk n v],
        [(n, devStep cfg manifest (buildStep cfg manifest (depsStep cfg manifest [])))]) := by
    simp [Project.parse_root_deps, hp, Toml.as_table, hn, hv]
  have hstage : parseStage cfg manifest lock = Project.parse_lock_file cfg lock
      [RootCrate.mk n v]
      [(n, devStep cfg manifest (buildStep cfg manifest (depsStep cfg manifest [])))] := by
    simp [parseStage, hrd]
  rw [hstage]
  exact parse_lock_file_c6 cfg lock n v fs
    (devStep cfg manifest (buildStep cfg manifest (depsStep cfg manifest [])))
    hf hnf hwf hwfroot

/-- Witness for C6 at a concrete input: filter {"x"} excludes root `foo`,
and although the lock file contains the exact `foo 1.0` entry, parsing
fails with the missing-root error. -/
theorem filtered_root_missing_error_witness :
    parseStage cfgDisjointFilter manifestW lockW =
      Except.error (PErr.cli (CliError.Toml (missingRootMsg "foo" "1.0"))) :=
  filtered_root_missing_error cfgDisjointFilter manifestW lockW
    [("name", Toml.str "foo"), ("version", Toml.str "1.0")] "foo" "1.0" ["x"]
    rfl rfl rfl rfl rfl
    (fun pkgs hpk => by
      rw [show lockW.get "package" = some (Toml.arr
        [Toml.table [("name", Toml.str "foo"), ("version", Toml.str "1.0"),
                     ("dependencies", Toml.arr [Toml.str "bar 0.2", Toml.str "baz 0.3 sha256"])],
         Toml.table [("name", Toml.str "bar"), ("version", Toml.str "0.2")],
         Toml.table [("name", Toml.str "baz"), ("version", Toml.str "0.3")]]) from rfl] at hpk
      cases hpk
      decide)
    (fun r hr => Option.noConfusion hr)

theorem mapGet_append {α : Type} (m l : List (String × α)) (k : String) :
    mapGet (m ++ l) k = match mapGet m k with
      | some x => some x
      | none => mapGet l k := by
  induction m with
  | nil => rfl
  | cons p rest ih =>
    obtain ⟨a, b⟩ := p
    by_cases hp : a = k
    · simp [mapGet, hp]
    · simp [mapGet, hp, ih]

theorem mapGet_cons {α : Type} (a : String) (b : α) (l : List (String × α)) (k : String) :
    mapGet ((a, b) :: l) k = if a = k then some b else mapGet l k := rfl

theorem mapGet_map_update_ne (m : DepKindsMap) (key d : String) (kind : DepKind)
    (hne : key ≠ d) :
    mapGet (m.map (fun p => if p.1 = key then (p.1, p.2 ++ [kind]) else p)) d = mapGet m d := by
  induction m with
  | nil => rfl
  | cons p rest ih =>
    obtain ⟨a, b⟩ := p
    simp only [List.map_cons]
    by_cases hak : a = key
    · subst hak
      rw [if_pos rfl, mapGet_cons, mapGet_cons, if_neg hne, if_neg hne]
      exact ih
    · rw [if_neg hak, mapGet_cons, mapGet_cons]
      by_cases had : a = d
      · rw [if_pos had, if_pos had]
      · rw [if_neg had, if_neg had]
        exact ih

theorem addKind_get_ne (m : DepKindsMap) (key d : String) (kind : DepKind) (hne : key ≠ d) :
    mapGet (addKind m key kind) d = mapGet m d := by
  unfold addKind
  cases hg : mapGet m key with
  | some ks => exact mapGet_map_update_ne m key d kind hne
  | none =>
    rw [mapGet_append]
    cases hd : mapGet m d with
    | some x => rfl
    | none => simp [mapGet, hne]

theorem depsFold_get_none (cfg : Config) (d : String) (hopt : cfg.optional_deps = false) :
    ∀ (entries : List (String × Toml)) (m : DepKindsMap),
      (∀ p ∈ entries, p.1 = d → isOptionalTrue (p.2.get "optional") = true) →
      mapGet m d = none →
      mapGet (entries.foldl (fun m p =>
        if isOptionalTrue (p.2.get "optional") then
          (if cfg.optional_deps then addKind m p.1 DepKind.Optional else m)
        else if cfg.regular_deps then addKind m p.1 DepKind.Regular
        else m) m) d = none := by
  intro entries
  induction entries with
  | nil => exact fun m _ h => h
  | cons p rest ih =>
    intro m hall hm
    simp only [List.foldl_cons]
    refine ih _ (fun x hx => hall x (by simp [hx])) ?_
    by_cases hoptp : isOptionalTrue (p.2.get "optional") = true
    · simp [hoptp, hopt, hm]
    · have hpd : p.1 ≠ d := fun he => hoptp (hall p (by simp) he)
      cases hreg : cfg.regular_deps with
      | false => simp [hoptp, hreg, hm]
      | true => simp [hoptp, hreg, addKind_get_ne m p.1 d DepKind.Regular hpd, hm]

theorem kindFold_get_none (kind : DepKind) (d : String) :
    ∀ (entries : List (String × Toml)) (m : DepKindsMap),
      (∀ p ∈ entries, p.1 ≠ d) → mapGet m d = none →
      mapGet (entries.foldl (fun m p => addKind m p.1 kind) m) d = none := by
  intro entries
  induction entries with
  | nil => exact fun m _ h => h
  | cons p rest ih =>
    intro m hall hm
    simp only [List.foldl_cons]
    refine ih _ (fun x hx => hall x (by simp [hx])) ?_
    rw [addKind_get_ne m p.1 d kind (hall p (by simp))]
    exact hm

theorem depsStep_get_none (cfg : Config) (manifest : Toml) (d : String)
    (hopt : cfg.optional_deps = false)
    (hd : ∀ t entries, manifest.get "dependencies" = some t → t.as_table = some entries →
      ∀ p ∈ entries, p.1 = d → isOptionalTrue (p.2.get "optional") = true)
    (m : DepKindsMap) (hm : mapGet m d = none) :
    mapGet (depsStep cfg manifest m) d = none := by
  unfold depsStep
  cases hg : manifest.get "dependencies" with
  | none => exact hm
  | some t =>
    cases t
    case table entries =>
      exact depsFold_get_none cfg d hopt entries m (hd (Toml.table entries) entries hg rfl) hm
    all_goals exact hm

theorem buildStep_get_none (cfg : Config) (manifest : Toml) (d : String)
    (hb : tableNoKey (manifest.get "build-dependencies") d)
    (m : DepKindsMap) (hm : mapGet m d = none) :
    mapGet (buildStep cfg manifest m) d = none := by
  unfold buildStep
  cases hbd : cfg.build_deps with
  | false => simp [hm]
  | true =>
    cases hg : manifest.get "build-dependencies" with
    | none => simp [hm]
    | some t =>
      cases t
      case table entries =>
        simp only [if_true]
        have hk : ∀ p ∈ entries, p.1 ≠ d := hb (Toml.table entries) entries hg rfl
        simp only [Toml.as_table]
        exact kindFold_get_none DepKind.Build d entries m hk hm
      all_goals simp [Toml.as_table, hm]

theorem devStep_get_none (cfg : Config) (manifest : Toml) (d : String)
    (hb : tableNoKey (manifest.get "dev-dependencies") d)
    (m : DepKindsMap) (hm : mapGet m d = none) :
    mapGet (devStep cfg manifest m) d = none := by
  unfold devStep
  cases hbd : cfg.dev_deps with
  | false => simp [hm]
  | true =>
    cases hg : manifest.get "dev-dependencies" with
    | none => simp [hm]
    | some t =>
      cases t
      case table entries =>
        simp only [if_true]
        have hk : ∀ p ∈ entries, p.1 ≠ d := hb (Toml.table entries) entries hg rfl
        simp only [Toml.as_table]
        exact kindFold_get_none DepKind.Dev d entries m hk hm
      all_goals simp [Toml.as_table, hm]

theorem processDep_cases (dg : DepGraph) (id : Nat) (nm : String) (dep : Toml) (dg1 : DepGraph)
    (h : processDep dg id nm dep = Except.ok dg1) :
    dg1 = dg ∨
    ∃ a b, dg1 = dg.add_child id a b ∧
      (∀ dkm2, mapGet dg.root_deps_map nm = some dkm2 → (mapGet dkm2 a).isSome = true) := by
  cases ht : depTokens dep with
  | nil => simp [processDep, ht] at h
  | cons a t1 =>
    cases t1 with
    | nil => simp [processDep, ht] at h
    | cons b r =>
      by_cases hfil : (match dg.cfg.filter with
          | some filter_deps => !(filter_deps.contains a)
          | none => false) = true
      · have hval : processDep dg id nm dep = Except.ok dg := by
          simp only [processDep, ht]
          rw [if_pos hfil]
        rw [hval] at h
        cases h
        exact Or.inl rfl
      · by_cases hskip : (match mapGet dg.root_deps_map nm with
            | some dep_kinds_map => (mapGet dep_kinds_map a).isNone
            | none => false) = true
        · have hval : processDep dg id nm dep = Except.ok dg := by
            simp only [processDep, ht]
            rw [if_neg hfil, if_pos hskip]
          rw [hval] at h
          cases h
          exact Or.inl rfl
        · have hval : processDep dg id nm dep = Except.ok (dg.add_child id a b) := by
            simp only [processDep, ht]
            rw [if_neg hfil, if_neg hskip]
          rw [hval] at h
          cases h
          refine Or.inr ⟨a, b, rfl, ?_⟩
          intro dkm2 hdkm2
          rw [hdkm2] at hskip
          exact isSome_of_not_isNone hskip

theorem edge_inv_add_child (dg dg0 : DepGraph) (id : Nat) (a b d : String) (hna : a ≠ d)
    (hinv : ∀ e ∈ dg.edges, e ∉ dg0.edges → ∃ c, dg.nodes.get? e.2 = some c ∧ c.1 ≠ d) :
    ∀ e ∈ (dg.add_child id a b).edges, e ∉ dg0.edges →
      ∃ c, (dg.add_child id a b).nodes.get? e.2 = some c ∧ c.1 ≠ d := by
  intro e he hne
  have hnodes : ∀ (i : Nat) (c : String × String), dg.nodes.get? i = some c →
      (dg.add_child id a b).nodes.get? i = some c := by
    intro i c hc
    rcases add_child_nodes dg id a b with hnn | hnn
    · rw [hnn]
      exact hc
    · rw [hnn]
      exact get?_append_left dg.nodes [(a, b)] i c hc
  rcases add_child_edges dg id a b with hee | ⟨cid, hee, hcid⟩
  · rw [hee] at he
    rcases hinv e he hne with ⟨c, hc, hcd⟩
    exact ⟨c, hnodes e.2 c hc, hcd⟩
  · rw [hee] at he
    rcases List.mem_append.mp he with h | h
    · rcases hinv e h hne with ⟨c, hc, hcd⟩
      exact ⟨c, hnodes e.2 c hc, hcd⟩
    · rw [List.mem_singleton] at h
      subst h
      exact ⟨(a, b), hcid, hna⟩

theorem processDeps_no_edge_to (id : Nat) (nm d : String) (dkm : DepKindsMap) :
    ∀ (deps : List Toml) (dg dg0 dg' : DepGraph),
      processDeps dg id nm deps = Except.ok dg' →
      mapGet dg.root_deps_map nm = some dkm → mapGet dkm d = none →
      (∀ e ∈ dg.edges, e ∉ dg0.edges → ∃ c, dg.nodes.get? e.2 = some c ∧ c.1 ≠ d) →
      (∀ e ∈ dg'.edges, e ∉ dg0.edges → ∃ c, dg'.nodes.get? e.2 = some c ∧ c.1 ≠ d) := by
  intro deps
  induction deps with
  | nil =>
    intro dg dg0 dg' h hrdm hdkm hinv
    cases h
    exact hinv
  | cons dep rest ih =>
    intro dg dg0 dg' h hrdm hdkm hinv
    unfold processDeps at h
    cases hpd : processDep dg id nm dep with
    | error e => rw [hpd] at h; cases h
    | ok dg1 =>
      rw [hpd] at h
      rcases processDep_cases dg id nm dep dg1 hpd with heq | ⟨a, b, hadd, hsome⟩
      · subst heq
        exact ih _ _ _ h hrdm hdkm hinv
      · have hna : a ≠ d := by
          intro had
          subst had
          have hs := hsome dkm hrdm
          rw [hdkm] at hs
          cases hs
        subst hadd
        refine ih (dg.add_child id a b) dg0 dg' h ?_ hdkm ?_
        · rw [add_child_rdm]
          exact hrdm
        · exact edge_inv_add_child dg dg0 id a b d hna hinv

theorem parse_package_no_edge_to (dg : DepGraph) (pkg : Toml) (rcs : List RootCrate)
    (nm d : String) (dkm : DepKindsMap) (dg' : DepGraph)
    (hn : pkg.get "name" = some (Toml.str nm))
    (hdkm : mapGet dg.root_deps_map nm = some dkm)
    (hd : mapGet dkm d = none)
    (hok : parse_package dg pkg rcs = Except.ok dg') :
    ∀ e ∈ dg'.edges, e ∉ dg.edges → ∃ c, dg'.nodes.get? e.2 = some c ∧ c.1 ≠ d := by
  cases hv : pkg.get "version" with
  | none => simp [parse_package, hn, hv, Toml.as_str] at hok
  | some vv =>
    cases vv
    case str vr =>
      by_cases hfil : (match dg.cfg.filter with
          | some filter_deps => !(filter_deps.contains nm)
          | none => false) = true
      · have hval : parse_package dg pkg rcs = Except.ok dg := by
          simp only [parse_package, hn, hv, Toml.as_str]
          rw [if_pos hfil]
        rw [hval] at hok
        cases hok
        intro e he hne
        exact absurd he hne
      · have hval : parse_package dg pkg rcs = parsePackageBody dg pkg nm vr rcs := by
          simp only [parse_package, hn, hv, Toml.as_str]
          rw [if_neg hfil]
        rw [hval] at hok
        unfold parsePackageBody at hok
        split at hok
        · cases hok
        · cases hdep : pkg.get "dependencies" with
          | none =>
            rw [hdep] at hok
            cases hok
            intro e he hne
            rw [find_or_add_edges] at he
            exact absurd he hne
          | some t =>
            rw [hdep] at hok
            cases t with
            | arr deps =>
              intro e he hne
              refine processDeps_no_edge_to (dg.find_or_add nm vr).1 nm d dkm deps
                (dg.find_or_add nm vr).2 dg dg' hok ?_ hd ?_ e he hne
              · rw [find_or_add_rdm]
                exact hdkm
              · intro e2 he2 hne2
                rw [find_or_add_edges] at he2
                exact absurd he2 hne2
            | str s =>
              cases hok
              intro e he hne
              rw [find_or_add_edges] at he
              exact absurd he hne
            | boolean bv =>
              cases hok
              intro e he hne
              rw [find_or_add_edges] at he
              exact absurd he hne
            | int iv =>
              cases hok
              intro e he hne
              rw [find_or_add_edges] at he
              exact absurd he hne
            | table tb =>
              cases hok
              intro e he hne
              rw [find_or_add_edges] at he
              exact absurd he hne
    all_goals simp [parse_package, hn, hv, Toml.as_str] at hok

/-- C4: a manifest dependency entry carrying `optional = true`, with the
optional-deps flag disabled, gets no entry in the root-deps map (not
even as Regular; the dependency is not also declared in the build or dev
tables), and consequently `parse_package` creates no edge from a root
crate's entry to a node of that dependency's name. -/
theorem optional_dep_excluded_when_disabled (cfg : Config) (manifest : Toml) (d : String)
    (dt : List (String × Toml))
    (hopt : cfg.optional_deps = false)
    (hdt : manifest.get "dependencies" = some (Toml.table dt))
    (hdopt : ∀ p ∈ dt, p.1 = d → isOptionalTrue (p.2.get "optional") = true)
    (_hdmem : ∃ p ∈ dt, p.1 = d)
    (hb : tableNoKey (manifest.get "build-dependencies") d)
    (hdev : tableNoKey (manifest.get "dev-dependencies") d) :
    ∀ rcs rdm, Project.parse_root_deps cfg manifest = Except.ok (rcs, rdm) →
      (∀ root dkm, mapGet rdm root = some dkm → mapGet dkm d = none) ∧
      (∀ dg pkg rcs2 nm dkm dg', pkg.get "name" = some (Toml.str nm) →
        dg.root_deps_map = rdm → mapGet rdm nm = some dkm →
        parse_package dg pkg rcs2 = Except.ok dg' →
        ∀ e ∈ dg'.edges, e ∉ dg.edges → ∃ c, dg'.nodes.get? e.2 = some c ∧ c.1 ≠ d) := by
  intro rcs rdm hok
  have hall : mapGet (devStep cfg manifest (buildStep cfg manifest (depsStep cfg manifest [])))
      d = none := by
    refine devStep_get_none cfg manifest d hdev _
      (buildStep_get_none cfg manifest d hb _
        (depsStep_get_none cfg manifest d hopt ?_ [] rfl))
    intro t entries hg hat
    rw [hdt] at hg
    cases hg
    cases hat
    exact hdopt
  have hzero : ∀ root dkm, mapGet rdm root = some dkm → mapGet dkm d = none := by
    unfold Project.parse_root_deps at hok
    cases hp : manifest.get "package" with
    | none => rw [hp] at hok; cases hok
    | some t =>
      rw [hp] at hok
      cases t with
      | table pt =>
        cases hname : mapGet pt "name" with
        | none => simp [Toml.as_table, hname] at hok
        | some nv =>
          cases hver : mapGet pt "version" with
          | none =>
            cases nv <;> simp [Toml.as_table, hname, hver] at hok
          | some vv =>
            cases nv with
            | str n =>
              cases vv with
              | str v =>
                simp only [Toml.as_table, hname, hver, Except.ok.injEq, Prod.mk.injEq] at hok
                rcases hok with ⟨-, hrdm⟩
                subst hrdm
                intro root dkm hget
                unfold mapGet at hget
                by_cases hr : n = root
                · rw [if_pos hr] at hget
                  cases hget
                  exact hall
                · rw [if_neg hr] at hget
                  cases hget
              | boolean bv => simp [Toml.as_table, hname, hver] at hok
              | int iv => simp [Toml.as_table, hname, hver] at hok
              | table tb => simp [Toml.as_table, hname, hver] at hok
              | arr av => simp [Toml.as_table, hname, hver] at hok
            | boolean bv => simp [Toml.as_table, hname, hver] at hok
            | int iv => simp [Toml.as_table, hname, hver] at hok
            | table tb => simp [Toml.as_table, hname, hver] at hok
            | arr av => simp [Toml.as_table, hname, hver] at hok
      | str s => cases hok
      | boolean bv => cases hok
      | int iv => cases hok
      | arr av => cases hok
  refine ⟨hzero, ?_⟩
  intro dg pkg rcs2 nm dkm dg' hn hrdm hget hpok
  exact parse_package_no_edge_to dg pkg rcs2 nm d dkm dg' hn
    (by rw [hrdm]; exact hget) (hzero nm dkm hget) hpok

/-- Witness for C4 at a concrete input: the manifest declares `opt` as
`optional = true` and `reg` as a regular dependency; with optional-deps
disabled, the root-deps map for `root` carries no entry for `opt`. -/
theorem optional_dep_excluded_when_disabled_witness :
    mapGet [("reg", [DepKind.Regular])] "opt" = none :=
  (optional_dep_excluded_when_disabled cfgPlain manifestOpt "opt"
    [("opt", Toml.table [("optional", Toml.boolean true)]), ("reg", Toml.table [])]
    rfl rfl (by decide)
    ⟨("opt", Toml.table [("optional", Toml.boolean true)]), by simp, rfl⟩
    (fun t entries h => Option.noConfusion h)
    (fun t entries h => Option.noConfusion h)
    [RootCrate.mk "root" "1.0"] [("root", [("reg", [DepKind.Regular])])] rfl).1
    "root" [("reg", [DepKind.Regular])] rfl
